import Mathlib

/-!
Verification development for `src/2d/magnetic_induction/resistive_bdf2.py`:
a discontinuous-Galerkin scheme for the 2-D resistive magnetic-induction
equation, integrated in time by one backward-Euler (BDF1) bootstrap step
followed by BDF2 steps that reuse a single LU factorization, wrapped in a
convergence-rate driver over a list of mesh resolutions.

Pointwise values of the discrete fields at a quadrature point are modelled
over an arbitrary linear ordered field `α` (the program computes with
floating-point reals); planar vectors are pairs, and the facet values of a
two-sided quantity are passed as separate `p`/`m` (plus/minus) arguments,
with `n('-') = -n('+')` for the facet normal.
-/

namespace Induction

/-- A planar vector value at a point. -/
abbrev Vec2 (α : Type) : Type := α × α

/-- A 2×2 tensor value at a point (row-major pairs). -/
abbrev Mat2 (α : Type) : Type := (α × α) × (α × α)

variable {α : Type} [LinearOrderedField α]

/-- `Cross(a,b) = a[0]*b[1] - a[1]*b[0]`: z-component of `a × b`. -/
def Cross (a b : Vec2 α) : α := a.1 * b.2 - a.2 * b.1

/-- `dot(a,b)` for planar vectors. -/
def dot (a b : Vec2 α) : α := a.1 * b.1 + a.2 * b.2

/-- Vector sum. -/
def vadd (a b : Vec2 α) : Vec2 α := (a.1 + b.1, a.2 + b.2)

/-- Vector difference. -/
def vsub (a b : Vec2 α) : Vec2 α := (a.1 - b.1, a.2 - b.2)

/-- Scalar multiple of a vector. -/
def vsmul (c : α) (a : Vec2 α) : Vec2 α := (c * a.1, c * a.2)

/-- Vector negation. -/
def vneg (a : Vec2 α) : Vec2 α := (-a.1, -a.2)

/-- `avg` of a vector facet quantity: mean of the two one-sided values. -/
def vavg (ap am : Vec2 α) : Vec2 α := vsmul (1 / 2) (vadd ap am)

/-- `avg` of a scalar facet quantity. -/
def savg (x y : α) : α := (x + y) / 2

/-- `jump(v) = v('+') - v('-')` for a vector facet quantity. -/
def vjump (ap am : Vec2 α) : Vec2 α := vsub ap am

/-- Interior-penalty parameter `C1 = 50.0` of the source. -/
def C1 (α : Type) [LinearOrderedField α] : α := 50

/-- Resistivity coefficient `eps = 1.0e-4` of the source. -/
def eps (α : Type) [LinearOrderedField α] : α := 1 / 10000

/-- The code's upwind splitting `unp = 0.5*(un + abs(un))`. -/
def unp (un : α) : α := (1 / 2) * (un + |un|)

/-- The code's upwind splitting `unm = 0.5*(un - abs(un))`. -/
def unm (un : α) : α := (1 / 2) * (un - |un|)

/-- The reference upwind part `max(un, 0)` named by the claim. -/
def unpRef (un : α) : α := max un 0

/-- The reference upwind part `min(un, 0)` named by the claim. -/
def unmRef (un : α) : α := min un 0

/-- `Fl = as_tensor(B[i]*u[j] - B[j]*u[i], (i,j))`. -/
def Fl (B u : Vec2 α) : Mat2 α :=
  ((B.1 * u.1 - B.1 * u.1, B.1 * u.2 - B.2 * u.1),
   (B.2 * u.1 - B.1 * u.2, B.2 * u.2 - B.2 * u.2))

/-- `inner` of two 2×2 tensors. -/
def minner (M K : Mat2 α) : α :=
  M.1.1 * K.1.1 + M.1.2 * K.1.2 + M.2.1 * K.2.1 + M.2.2 * K.2.2

/-- The code's interior-face advective flux
`H = unp('+')*B('+') + unm('+')*B('-') - u('+')*inner(avg(B), n('+'))`. -/
def H (Bp Bm up n : Vec2 α) : Vec2 α :=
  vadd (vadd (vsmul (unp (dot up n)) Bp) (vsmul (unm (dot up n)) Bm))
    (vneg (vsmul (dot (vavg Bp Bm) n) up))

/-- The reference interior-face flux of the claim, with `max`/`min` upwind parts. -/
def Href (Bp Bm up n : Vec2 α) : Vec2 α :=
  vadd (vadd (vsmul (unpRef (dot up n)) Bp) (vsmul (unmRef (dot up n)) Bm))
    (vneg (vsmul (dot (vavg Bp Bm) n) up))

/-- The code's boundary advective flux `Hb = B*unp + g*unm - u*Bn`. -/
def Hb (B g u n : Vec2 α) : Vec2 α :=
  vadd (vadd (vsmul (unp (dot u n)) B) (vsmul (unm (dot u n)) g))
    (vneg (vsmul (dot B n) u))

/-- The reference boundary flux of the claim, with `max`/`min` upwind parts. -/
def HbRef (B g u n : Vec2 α) : Vec2 α :=
  vadd (vadd (vsmul (unpRef (dot u n)) B) (vsmul (unmRef (dot u n)) g))
    (vneg (vsmul (dot B n) u))

/-- Advective volume integrand `-inner(Fl, grad(v)) + dot(u,v)*div(B)`;
the values of `grad(v)` and `div(B)` at the point are inputs. -/
def advVolume (B u v : Vec2 α) (gradv : Mat2 α) (divB : α) : α :=
  -minner (Fl B u) gradv + dot u v * divB

/-- The code's advective interior-facet integrand
`inner(H, jump(v)) - 2*dot(avg(u), avg(v))*avg(dot(B,n))`. -/
def advInterior (Bp Bm vp vm up um n : Vec2 α) : α :=
  dot (H Bp Bm up n) (vjump vp vm)
    - 2 * dot (vavg up um) (vavg vp vm) * savg (dot Bp n) (dot Bm (vneg n))

/-- The reference advective interior-facet integrand of the claim. -/
def advInteriorRef (Bp Bm vp vm up um n : Vec2 α) : α :=
  dot (Href Bp Bm up n) (vjump vp vm)
    - 2 * dot (vavg up um) (vavg vp vm) * savg (dot Bp n) (dot Bm (vneg n))

/-- The code's advective exterior-facet integrand `inner(Hb, v)`. -/
def advBoundary (B v u g n : Vec2 α) : α := dot (Hb B g u n) v

/-- The reference advective exterior-facet integrand of the claim. -/
def advBoundaryRef (B v u g n : Vec2 α) : α := dot (HbRef B g u n) v

theorem unp_eq_unpRef (x : α) : unp x = unpRef x := by
  unfold unp unpRef
  rcases le_total x 0 with h | h
  · rw [abs_of_nonpos h, max_eq_right h]; ring
  · rw [abs_of_nonneg h, max_eq_left h]; ring

theorem unm_eq_unmRef (x : α) : unm x = unmRef x := by
  unfold unm unmRef
  rcases le_total x 0 with h | h
  · rw [abs_of_nonpos h, min_eq_left h]; ring
  · rw [abs_of_nonneg h, min_eq_right h]; ring

/-- C1: the advective part of `BForm` coincides with the claim's reference
expression: the code's `0.5*(un ± abs(un))` splitting equals `max(un,0)` /
`min(un,0)`, so the interior flux `H`, the interior-facet integrand (flux
against `jump(v)` plus the `-2*dot(avg(u),avg(v))*avg(dot(B,n))` correction)
and the boundary flux integrand `inner(Hb, v)` all equal their reference
forms, at every point value of the fields. -/
theorem advective_flux_matches_reference
    (Bp Bm vp vm up um B v u g n : Vec2 α) :
    H Bp Bm up n = Href Bp Bm up n
    ∧ Hb B g u n = HbRef B g u n
    ∧ advInterior Bp Bm vp vm up um n = advInteriorRef Bp Bm vp vm up um n
    ∧ advBoundary B v u g n = advBoundaryRef B v u g n := by
  refine ⟨?_, ?_, ?_, ?_⟩ <;>
    simp only [H, Href, Hb, HbRef, advInterior, advInteriorRef, advBoundary,
      advBoundaryRef, unp_eq_unpRef, unm_eq_unmRef]

/-- Resistive volume integrand `eps*Curl(B)*Curl(v)`; curl values at the
point are inputs. -/
def resVolume (curlB curlv : α) : α := eps α * curlB * curlv

/-- Resistive interior-facet integrand: the two consistency terms and the
interior penalty term of the symmetric interior-penalty discretization,
`-2*avg(eps*Curl(B))*avg(Cross(n,v)) - 2*avg(eps*Curl(v))*avg(Cross(n,B))
 + (C1*eps/avg(h))*avg(Cross(n,B))*avg(Cross(n,v))`. -/
def resInterior (curlBp curlBm curlvp curlvm : α) (Bp Bm vp vm n : Vec2 α)
    (hp hm : α) : α :=
  -2 * savg (eps α * curlBp) (eps α * curlBm) * savg (Cross n vp) (Cross (vneg n) vm)
    - 2 * savg (eps α * curlvp) (eps α * curlvm) * savg (Cross n Bp) (Cross (vneg n) Bm)
    + C1 α * eps α / savg hp hm * (savg (Cross n Bp) (Cross (vneg n) Bm)
        * savg (Cross n vp) (Cross (vneg n) vm))

/-- Resistive exterior-facet integrand:
`-eps*Curl(B)*Cross(n,v) - eps*Curl(v)*Cross(n,B-g)
 + (C1*eps/h)*Cross(n,B-g)*Cross(n,v)`. -/
def resBoundary (curlB curlv : α) (B v g n : Vec2 α) (h : α) : α :=
  -(eps α) * curlB * Cross n v - eps α * curlv * Cross n (vsub B g)
    + C1 α * eps α / h * (Cross n (vsub B g) * Cross n v)

/-- Trial-field point data on a cell: the value of `B`, of `div(B)` and of
`Curl(B)` at the quadrature point. -/
structure CellB (α : Type) where
  B : Vec2 α
  divB : α
  curlB : α

/-- Trial-field point data on an interior facet: the two one-sided values of
`B` and of `Curl(B)`. -/
structure FaceB (α : Type) where
  Bp : Vec2 α
  Bm : Vec2 α
  curlBp : α
  curlBm : α

/-- Trial-field point data on an exterior facet. -/
structure BdryB (α : Type) where
  B : Vec2 α
  curlB : α

/-- The zero trial data on a cell. -/
def CellB.zero (α : Type) [LinearOrderedField α] : CellB α := ⟨(0, 0), 0, 0⟩

/-- Pointwise sum of cell trial data. -/
def CellB.add (x y : CellB α) : CellB α :=
  ⟨vadd x.B y.B, x.divB + y.divB, x.curlB + y.curlB⟩

/-- Pointwise scalar multiple of cell trial data. -/
def CellB.smul (c : α) (x : CellB α) : CellB α :=
  ⟨vsmul c x.B, c * x.divB, c * x.curlB⟩

/-- The zero trial data on an interior facet. -/
def FaceB.zero (α : Type) [LinearOrderedField α] : FaceB α := ⟨(0, 0), (0, 0), 0, 0⟩

/-- Pointwise sum of interior-facet trial data. -/
def FaceB.add (x y : FaceB α) : FaceB α :=
  ⟨vadd x.Bp y.Bp, vadd x.Bm y.Bm, x.curlBp + y.curlBp, x.curlBm + y.curlBm⟩

/-- Pointwise scalar multiple of interior-facet trial data. -/
def FaceB.smul (c : α) (x : FaceB α) : FaceB α :=
  ⟨vsmul c x.Bp, vsmul c x.Bm, c * x.curlBp, c * x.curlBm⟩

/-- The zero trial data on an exterior facet. -/
def BdryB.zero (α : Type) [LinearOrderedField α] : BdryB α := ⟨(0, 0), 0⟩

/-- Pointwise sum of exterior-facet trial data. -/
def BdryB.add (x y : BdryB α) : BdryB α := ⟨vadd x.B y.B, x.curlB + y.curlB⟩

/-- Pointwise scalar multiple of exterior-facet trial data. -/
def BdryB.smul (c : α) (x : BdryB α) : BdryB α := ⟨vsmul c x.B, c * x.curlB⟩

/-- Cell integrand of the BDF2 residual form
`inner(B - 4/3*B1 + 1/3*B0, v) + (2/3)*dt*BForm(B,v,u,g,n,h)` (its `dx` part). -/
def bdf2Cell (dt : α) (B0 B1 v u : Vec2 α) (gradv : Mat2 α) (curlv : α)
    (cb : CellB α) : α :=
  dot (vadd (vsub cb.B (vsmul (4 / 3) B1)) (vsmul (1 / 3) B0)) v
    + (2 / 3) * dt * (advVolume cb.B u v gradv cb.divB + resVolume cb.curlB curlv)

/-- Interior-facet (`dS`) integrand of the BDF2 residual form. -/
def bdf2Interior (dt : α) (vp vm up um n : Vec2 α) (curlvp curlvm hp hm : α)
    (fb : FaceB α) : α :=
  (2 / 3) * dt * (advInterior fb.Bp fb.Bm vp vm up um n
    + resInterior fb.curlBp fb.curlBm curlvp curlvm fb.Bp fb.Bm vp vm n hp hm)

/-- Exterior-facet (`ds`) integrand of the BDF2 residual form. -/
def bdf2Boundary (dt : α) (v u g n : Vec2 α) (curlv h : α) (bb : BdryB α) : α :=
  (2 / 3) * dt * (advBoundary bb.B v u g n + resBoundary bb.curlB curlv bb.B v g n h)

/-- Trial-dependent part of the BDF2 cell integrand: `lhs` keeps the terms
containing the trial function, i.e. the integrand minus its value at trial
data zero. -/
def bdf2CellTrial (dt : α) (B0 B1 v u : Vec2 α) (gradv : Mat2 α) (curlv : α)
    (cb : CellB α) : α :=
  bdf2Cell dt B0 B1 v u gradv curlv cb
    - bdf2Cell dt B0 B1 v u gradv curlv (CellB.zero α)

/-- Trial-dependent part of the BDF2 interior-facet integrand. -/
def bdf2InteriorTrial (dt : α) (vp vm up um n : Vec2 α) (curlvp curlvm hp hm : α)
    (fb : FaceB α) : α :=
  bdf2Interior dt vp vm up um n curlvp curlvm hp hm fb
    - bdf2Interior dt vp vm up um n curlvp curlvm hp hm (FaceB.zero α)

/-- Trial-dependent part of the BDF2 exterior-facet integrand. -/
def bdf2BoundaryTrial (dt : α) (v u g n : Vec2 α) (curlv h : α) (bb : BdryB α) : α :=
  bdf2Boundary dt v u g n curlv h bb - bdf2Boundary dt v u g n curlv h (BdryB.zero α)

/-- The code's bootstrap residual `inner(B-B0,v)*dx + dt*BForm(B,v,u,g,n,h)`
at the level of its two assembled summands: `mB` stands for the value of
`inner(B-B0,v)*dx` and `bf` for the value of `BForm(B,v,u,g,n,h)`. -/
def bdf1FormCode (dt mB bf : α) : α := mB + dt * bf

/-- The claim's reference bootstrap residual `(B1-B0)/dt + BForm(B1,·)`, over
the same two summands. -/
def bdf1FormRef (dt mB bf : α) : α := mB / dt + bf

theorem bdf1Form_scaling (dt mB bf : α) (hdt : 0 < dt) :
    (bdf1FormCode dt mB bf = 0 ↔ bdf1FormRef dt mB bf = 0) := by
  have hne : dt ≠ 0 := ne_of_gt hdt
  have hrw : bdf1FormRef dt mB bf = bdf1FormCode dt mB bf / dt := by
    unfold bdf1FormRef bdf1FormCode
    field_simp
    ring
  rw [hrw, div_eq_zero_iff]
  constructor
  · intro h; exact Or.inl h
  · rintro (h | h)
    · exact h
    · exact absurd h hne

theorem bdf2CellTrial_time_invariant (dt : α) (B0 B1 B0' B1' v u : Vec2 α)
    (gradv : Mat2 α) (curlv : α) (cb : CellB α) :
    bdf2CellTrial dt B0 B1 v u gradv curlv cb
      = bdf2CellTrial dt B0' B1' v u gradv curlv cb := by
  simp only [bdf2CellTrial, bdf2Cell, CellB.zero, advVolume, resVolume, Fl,
    minner, dot, vadd, vsub, vsmul]
  ring

theorem bdf2BoundaryTrial_time_invariant (dt : α) (v u g g' n : Vec2 α)
    (curlv h : α) (bb : BdryB α) :
    bdf2BoundaryTrial dt v u g n curlv h bb
      = bdf2BoundaryTrial dt v u g' n curlv h bb := by
  simp only [bdf2BoundaryTrial, bdf2Boundary, BdryB.zero, advBoundary, Hb,
    resBoundary, unp, unm, Cross, dot, vadd, vsub, vsmul, vneg]
  ring

theorem bdf2CellTrial_linear (dt : α) (B0 B1 v u : Vec2 α) (gradv : Mat2 α)
    (curlv a : α) (cb cb' : CellB α) :
    bdf2CellTrial dt B0 B1 v u gradv curlv (CellB.add (CellB.smul a cb) cb')
      = a * bdf2CellTrial dt B0 B1 v u gradv curlv cb
        + bdf2CellTrial dt B0 B1 v u gradv curlv cb' := by
  simp only [bdf2CellTrial, bdf2Cell, CellB.zero, CellB.add, CellB.smul,
    advVolume, resVolume, Fl, minner, dot, vadd, vsub, vsmul]
  ring

theorem bdf2InteriorTrial_linear (dt : α) (vp vm up um n : Vec2 α)
    (curlvp curlvm hp hm a : α) (fb fb' : FaceB α) :
    bdf2InteriorTrial dt vp vm up um n curlvp curlvm hp hm
        (FaceB.add (FaceB.smul a fb) fb')
      = a * bdf2InteriorTrial dt vp vm up um n curlvp curlvm hp hm fb
        + bdf2InteriorTrial dt vp vm up um n curlvp curlvm hp hm fb' := by
  simp only [bdf2InteriorTrial, bdf2Interior, FaceB.zero, FaceB.add, FaceB.smul,
    advInterior, resInterior, H, unp, unm, Cross, dot, vadd, vsub, vsmul, vneg,
    vavg, vjump, savg]
  ring

theorem bdf2BoundaryTrial_linear (dt : α) (v u g n : Vec2 α) (curlv h a : α)
    (bb bb' : BdryB α) :
    bdf2BoundaryTrial dt v u g n curlv h (BdryB.add (BdryB.smul a bb) bb')
      = a * bdf2BoundaryTrial dt v u g n curlv h bb
        + bdf2BoundaryTrial dt v u g n curlv h bb' := by
  simp only [bdf2BoundaryTrial, bdf2Boundary, BdryB.zero, BdryB.add, BdryB.smul,
    advBoundary, Hb, resBoundary, unp, unm, Cross, dot, vadd, vsub, vsmul, vneg]
  ring

/-- Run parameters of `solve_induction`, with the external FEM layer
abstracted: `b0` is the interpolated initial condition, `fresh` a newly
allocated (zero) function, `bdf1 B0 tb` the field solved from the one-off
backward-Euler system `inner(B-B0,v)*dx + dt*BForm(B,v,u,g,n,h) = 0` with
the boundary data at time `tb`, and `bdf2 B0 B1 tb` the field solved from
the cached-factorization BDF2 system with history `B0`, `B1` and boundary
data at time `tb`. `itsave` is the snapshot interval, `T` the horizon and
`dt` the fixed step. -/
structure IndParams (α F : Type) [LinearOrderedField α] where
  b0 : F
  fresh : F
  bdf1 : F → α → F
  bdf2 : F → F → α → F
  itsave : ℕ
  T : α
  dt : α

/-- Program state of `solve_induction`, instrumented: `snaps` counts writes
to the solution file `sol.pvd`, `matAsm` the assemblies of the BDF2 system
matrix `a`, `rhsAsm` the assemblies of the BDF2 right-hand side `L`,
`cachedFact` is the LU factorization held by `solver` (`none` before it is
created) and `solves` records, in order, the factorization used by each
steady-loop solve. -/
structure IndState (α F : Type) where
  B0 : F
  B1 : F
  B2 : F
  it : ℕ
  t : α
  snaps : ℕ
  matAsm : ℕ
  rhsAsm : ℕ
  cachedFact : Option ℕ
  solves : List (Option ℕ)

/-- State after `B0 = interpolate(g, X); B2.assign(B0); fsol << B2` and the
initialization `it, t = 0, 0.0`: one snapshot written, nothing assembled. -/
def initState (P : IndParams α F) : IndState α F :=
  { B0 := P.b0, B1 := P.fresh, B2 := P.b0, it := 0, t := 0,
    snaps := 1, matAsm := 0, rhsAsm := 0, cachedFact := none, solves := [] }

/-- The bootstrap step `g.t = dt; solve(a1 == L1, B1); it += 1; t += dt`:
one backward-Euler step solved as a one-off system, nothing cached. -/
def bootstrapStep (P : IndParams α F) (s : IndState α F) : IndState α F :=
  { s with B1 := P.bdf1 s.B0 P.dt, it := s.it + 1, t := s.t + P.dt }

/-- The transition to steady stepping:
`A = PETScMatrix(); assemble(a, tensor=A); solver = LUSolver(A);
solver.parameters['reuse_factorization'] = True` — the BDF2 matrix is
assembled and its factorization cached. -/
def transition (s : IndState α F) : IndState α F :=
  { s with matAsm := s.matAsm + 1, cachedFact := some s.matAsm }

/-- One iteration of the steady loop body: `g.t = t + dt; b = assemble(L);
solver.solve(B2.vector(), b); B0.assign(B1); B1.assign(B2);
it += 1; t += dt; if it % itsave == 0: fsol << B2`. -/
def steadyStep (P : IndParams α F) (s : IndState α F) : IndState α F :=
  let b2 := P.bdf2 s.B0 s.B1 (s.t + P.dt)
  { B0 := s.B1, B1 := b2, B2 := b2, it := s.it + 1, t := s.t + P.dt,
    snaps := if (s.it + 1) % P.itsave = 0 then s.snaps + 1 else s.snaps,
    matAsm := s.matAsm, rhsAsm := s.rhsAsm + 1,
    cachedFact := s.cachedFact, solves := s.solves ++ [s.cachedFact] }

/-- The steady loop `while t < T: ...`, with explicit fuel (the theorems
below show the guard turns false after finitely many iterations, so any
sufficiently large fuel yields the loop's actual result). -/
def steadyLoop (P : IndParams α F) : ℕ → IndState α F → IndState α F
  | 0, s => s
  | fuel + 1, s => if s.t < P.T then steadyLoop P fuel (steadyStep P s) else s

/-- The whole of `solve_induction` after initialization: bootstrap step,
transition to the cached BDF2 system, then the steady loop. -/
def runInduction (P : IndParams α F) (fuel : ℕ) : IndState α F :=
  steadyLoop P fuel (transition (bootstrapStep P (initState P)))

/-- Master invariant of the steady loop: starting from a state at time
`m*dt` with `m ≤ N` and horizon `T = N*dt`, the loop performs exactly
`N - m` iterations, each advancing `it`, `t` and `rhsAsm` and appending one
solve with the cached factorization; the matrix and the cached factorization
are never touched; with `itsave = 1` every iteration writes a snapshot, and
when `it` stays below `itsave` no iteration writes one. -/
theorem steadyLoop_master (P : IndParams α F) (N : ℕ)
    (hdt : 0 < P.dt) (hT : P.T = (N : α) * P.dt) :
    ∀ (fuel m : ℕ), ∀ s : IndState α F, s.t = (m : α) * P.dt → m ≤ N → N - m ≤ fuel →
      (steadyLoop P fuel s).it = s.it + (N - m)
      ∧ (steadyLoop P fuel s).t = (N : α) * P.dt
      ∧ (steadyLoop P fuel s).matAsm = s.matAsm
      ∧ (steadyLoop P fuel s).rhsAsm = s.rhsAsm + (N - m)
      ∧ (steadyLoop P fuel s).cachedFact = s.cachedFact
      ∧ (steadyLoop P fuel s).solves
          = s.solves ++ List.replicate (N - m) s.cachedFact
      ∧ (P.itsave = 1 → (steadyLoop P fuel s).snaps = s.snaps + (N - m))
      ∧ (s.it + (N - m) < P.itsave → (steadyLoop P fuel s).snaps = s.snaps) := by
  intro fuel
  induction fuel with
  | zero =>
    intro m s hs hm hf
    have hNm : N - m = 0 := Nat.le_zero.mp hf
    have hmN : m = N := by omega
    subst hmN
    simp [steadyLoop, hNm, hs]
  | succ fuel ih =>
    intro m s hs hm hf
    rcases Nat.lt_or_ge m N with hlt | hge
    · -- guard holds: one more iteration
      have hguard : s.t < P.T := by
        rw [hs, hT]
        exact mul_lt_mul_of_pos_right (by exact_mod_cast hlt) hdt
      have hstep : steadyLoop P (fuel + 1) s = steadyLoop P fuel (steadyStep P s) := by
        rw [steadyLoop, if_pos hguard]
      have ht' : (steadyStep P s).t = ((m + 1 : ℕ) : α) * P.dt := by
        simp only [steadyStep, hs]
        push_cast
        ring
      obtain ⟨h1, h2, h3, h4, h5, h6, h7, h8⟩ :=
        ih (m + 1) (steadyStep P s) ht' (by omega) (by omega)
      have hcount : N - m = (N - (m + 1)) + 1 := by omega
      refine ⟨?_, ?_, ?_, ?_, ?_, ?_, ?_, ?_⟩
      · rw [hstep, h1]; simp only [steadyStep]; omega
      · rw [hstep, h2]
      · rw [hstep, h3]; simp only [steadyStep]
      · rw [hstep, h4]; simp only [steadyStep]; omega
      · rw [hstep, h5]; simp only [steadyStep]
      · rw [hstep, h6]
        simp only [steadyStep, hcount, List.replicate_succ, List.append_assoc,
          List.singleton_append]
      · intro hone
        rw [hstep, h7 hone]
        simp only [steadyStep, hone, Nat.mod_one, if_pos]
        omega
      · intro hbig
        have hlt1 : s.it + 1 < P.itsave := by omega
        have hmod : (s.it + 1) % P.itsave = s.it + 1 := Nat.mod_eq_of_lt hlt1
        have hne : ¬((s.it + 1) % P.itsave = 0) := by omega
        rw [hstep, h8 (by simp only [steadyStep]; omega)]
        simp only [steadyStep, if_neg hne]
    · -- guard fails: m = N, loop exits
      have hmN : m = N := le_antisymm hm hge
      subst hmN
      have hguard : ¬ s.t < P.T := by
        rw [hs, hT]
        exact lt_irrefl _
      rw [steadyLoop, if_neg hguard]
      simp [hs, Nat.sub_self]

/-- Facts about a full run: with horizon `T = N*dt` (`N ≥ 1`, `dt > 0`) and
any fuel of at least `N - 1`, the run performs the bootstrap step and then
exactly `N - 1` steady iterations, ending at `it = N`, `t = T`, with one
matrix assembly, `N - 1` right-hand-side assemblies, the single cached
factorization `some 0` used by every steady solve; with `itsave = 1` it has
written `N` snapshots, and with `N < itsave` only the initial one. -/
theorem runInduction_facts (P : IndParams α F) (N fuel : ℕ)
    (hdt : 0 < P.dt) (hT : P.T = (N : α) * P.dt) (hN : 1 ≤ N)
    (hfuel : N - 1 ≤ fuel) :
    (runInduction P fuel).it = N
    ∧ (runInduction P fuel).t = P.T
    ∧ (runInduction P fuel).matAsm = 1
    ∧ (runInduction P fuel).rhsAsm = N - 1
    ∧ (runInduction P fuel).cachedFact = some 0
    ∧ (runInduction P fuel).solves = List.replicate (N - 1) (some 0)
    ∧ (P.itsave = 1 → (runInduction P fuel).snaps = N)
    ∧ (N < P.itsave → (runInduction P fuel).snaps = 1) := by
  have hstart : (transition (bootstrapStep P (initState P))).t = ((1 : ℕ) : α) * P.dt := by
    simp [transition, bootstrapStep, initState]
  obtain ⟨h1, h2, h3, h4, h5, h6, h7, h8⟩ :=
    steadyLoop_master P N hdt hT fuel 1 (transition (bootstrapStep P (initState P)))
      hstart hN hfuel
  have hfields : (transition (bootstrapStep P (initState P))).it = 1
      ∧ (transition (bootstrapStep P (initState P))).snaps = 1
      ∧ (transition (bootstrapStep P (initState P))).matAsm = 1
      ∧ (transition (bootstrapStep P (initState P))).rhsAsm = 0
      ∧ (transition (bootstrapStep P (initState P))).cachedFact = some 0
      ∧ (transition (bootstrapStep P (initState P))).solves = [] := by
    refine ⟨?_, ?_, ?_, ?_, ?_, ?_⟩ <;> simp [transition, bootstrapStep, initState]
  obtain ⟨hi, hsn, hma, hra, hcf, hsv⟩ := hfields
  unfold runInduction
  refine ⟨?_, ?_, ?_, ?_, ?_, ?_, ?_, ?_⟩
  · rw [h1, hi]; omega
  · rw [h2, hT]
  · rw [h3, hma]
  · rw [h4, hra]; omega
  · rw [h5, hcf]
  · rw [h6, hsv, hcf]; simp
  · intro hone; rw [h7 hone, hsn]; omega
  · intro hbig; rw [h8 (by omega), hsn]

/-- The default of the `-s` option of the command line: `default=1000000`. -/
def defaultItsave : ℕ := 1000000

/-- Horizon in terms of the step count: `dt = T/N` and `N ≥ 1` give `T = N*dt`. -/
theorem horizon_eq (P : IndParams α F) (N : ℕ) (hN : 1 ≤ N)
    (hdt : P.dt = P.T / (N : α)) : P.T = (N : α) * P.dt := by
  have hNα : (N : α) ≠ 0 := Nat.cast_ne_zero.mpr (by omega)
  rw [hdt]
  field_simp

/-- C6: time advances only by the accumulation `t += dt` (the sole
time-advance in `bootstrapStep` and `steadyStep`), and with `dt = T/N` in
exact arithmetic the run reaches `t = T`: the steady loop guarded by
`t < T` executes exactly `N - 1` iterations after the single bootstrap step
(each iteration assembles exactly one right-hand side, so `rhsAsm` counts
iterations), the guard is false at the final state, and the final step
counter `it` equals `N`. -/
theorem time_accumulation_reaches_T (P : IndParams α F) (N fuel : ℕ)
    (hN : 1 ≤ N) (hdt : P.dt = P.T / (N : α)) (hpos : 0 < P.dt)
    (hfuel : N - 1 ≤ fuel) :
    (runInduction P fuel).it = N
    ∧ (runInduction P fuel).t = P.T
    ∧ ¬((runInduction P fuel).t < P.T)
    ∧ (runInduction P fuel).rhsAsm = N - 1 := by
  have hT := horizon_eq P N hN hdt
  obtain ⟨h1, h2, _, h4, _, _, _, _⟩ := runInduction_facts P N fuel hpos hT hN hfuel
  exact ⟨h1, h2, by rw [h2]; exact lt_irrefl _, h4⟩

/-- A concrete run configuration over `ℚ` used to instantiate the generic
run theorems: three steps of size `1` on horizon `3`, snapshots every step. -/
def sampleParams : IndParams ℚ ℚ :=
  { b0 := 0, fresh := 0, bdf1 := fun b tb => b + tb,
    bdf2 := fun b0 b1 tb => b0 + b1 + tb, itsave := 1, T := 3, dt := 1 }

/-- The same configuration with the default snapshot interval. -/
def sampleParamsDefault : IndParams ℚ ℚ :=
  { sampleParams with itsave := defaultItsave }

theorem time_accumulation_reaches_T_witness :
    (1 ≤ 3 ∧ sampleParams.dt = sampleParams.T / ((3 : ℕ) : ℚ)
      ∧ 0 < sampleParams.dt ∧ 3 - 1 ≤ 2)
    ∧ (runInduction sampleParams 2).it = 3
    ∧ (runInduction sampleParams 2).t = sampleParams.T
    ∧ ¬((runInduction sampleParams 2).t < sampleParams.T)
    ∧ (runInduction sampleParams 2).rhsAsm = 3 - 1 :=
  ⟨⟨by norm_num, by norm_num [sampleParams], by norm_num [sampleParams], by norm_num⟩,
   time_accumulation_reaches_T sampleParams 3 2 (by norm_num)
     (by norm_num [sampleParams]) (by norm_num [sampleParams]) (by norm_num)⟩

/-- C4: within one run the BDF2 system matrix is assembled exactly once and
never re-assembled or re-factorized during steady stepping, and each steady
step assembles exactly one right-hand side: at the end of the run the matrix
assembly count is `1` and the right-hand-side assembly count equals the
number of steady steps, `it - 1` (all steps except the bootstrap step). -/
theorem assembly_counts (P : IndParams α F) (N fuel : ℕ)
    (hN : 1 ≤ N) (hdt : P.dt = P.T / (N : α)) (hpos : 0 < P.dt)
    (hfuel : N - 1 ≤ fuel) :
    (runInduction P fuel).matAsm = 1
    ∧ (runInduction P fuel).rhsAsm = (runInduction P fuel).it - 1 := by
  have hT := horizon_eq P N hN hdt
  obtain ⟨h1, _, h3, h4, _, _, _, _⟩ := runInduction_facts P N fuel hpos hT hN hfuel
  exact ⟨h3, by rw [h4, h1]⟩

theorem assembly_counts_witness :
    (1 ≤ 3 ∧ sampleParams.dt = sampleParams.T / ((3 : ℕ) : ℚ)
      ∧ 0 < sampleParams.dt ∧ 3 - 1 ≤ 2)
    ∧ (runInduction sampleParams 2).matAsm = 1
    ∧ (runInduction sampleParams 2).rhsAsm = (runInduction sampleParams 2).it - 1 :=
  ⟨⟨by norm_num, by norm_num [sampleParams], by norm_num [sampleParams], by norm_num⟩,
   assembly_counts sampleParams 3 2 (by norm_num) (by norm_num [sampleParams])
     (by norm_num [sampleParams]) (by norm_num)⟩

/-- C2: at the transition to steady stepping the BDF2 bilinear form is
assembled into the system matrix and factorized exactly once (`matAsm = 1`,
the cached factorization is the one created there), and that factorization
is reused by every steady solve of the run (`solves` is `N - 1` copies of
it). The system solved is the BDF2 form
`inner(B - 4/3*B1 + 1/3*B0, v) + (2/3)*dt*BForm(B,v,u,g,n,h) = 0`, whose
trial-dependent part is a well-defined bilinear form independent of the
time-dependent data: the cell trial part does not depend on `B1`, `B0`, the
boundary trial part does not depend on the boundary data `g` (the only
time-dependent input), and all three trial parts are linear in the trial
data — so the assembled matrix is the same at every step. -/
theorem bdf2_factorized_once_reused (P : IndParams α F) (N fuel : ℕ)
    (hN : 1 ≤ N) (hdt : P.dt = P.T / (N : α)) (hpos : 0 < P.dt)
    (hfuel : N - 1 ≤ fuel)
    (dtf a curlv curlvp curlvm hp hm hb : α)
    (B0 B1 B0' B1' v u g g' n vp vm up um : Vec2 α) (gradv : Mat2 α)
    (cb cb' : CellB α) (fb fb' : FaceB α) (bb bb' : BdryB α) :
    ((runInduction P fuel).matAsm = 1
      ∧ (runInduction P fuel).cachedFact = some 0
      ∧ (runInduction P fuel).solves = List.replicate (N - 1) (some 0))
    ∧ bdf2CellTrial dtf B0 B1 v u gradv curlv cb
        = bdf2CellTrial dtf B0' B1' v u gradv curlv cb
    ∧ bdf2BoundaryTrial dtf v u g n curlv hb bb
        = bdf2BoundaryTrial dtf v u g' n curlv hb bb
    ∧ bdf2CellTrial dtf B0 B1 v u gradv curlv (CellB.add (CellB.smul a cb) cb')
        = a * bdf2CellTrial dtf B0 B1 v u gradv curlv cb
          + bdf2CellTrial dtf B0 B1 v u gradv curlv cb'
    ∧ bdf2InteriorTrial dtf vp vm up um n curlvp curlvm hp hm
          (FaceB.add (FaceB.smul a fb) fb')
        = a * bdf2InteriorTrial dtf vp vm up um n curlvp curlvm hp hm fb
          + bdf2InteriorTrial dtf vp vm up um n curlvp curlvm hp hm fb'
    ∧ bdf2BoundaryTrial dtf v u g n curlv hb (BdryB.add (BdryB.smul a bb) bb')
        = a * bdf2BoundaryTrial dtf v u g n curlv hb bb
          + bdf2BoundaryTrial dtf v u g n curlv hb bb' := by
  have hT := horizon_eq P N hN hdt
  obtain ⟨_, _, h3, _, h5, h6, _, _⟩ := runInduction_facts P N fuel hpos hT hN hfuel
  exact ⟨⟨h3, h5, h6⟩,
    bdf2CellTrial_time_invariant dtf B0 B1 B0' B1' v u gradv curlv cb,
    bdf2BoundaryTrial_time_invariant dtf v u g g' n curlv hb bb,
    bdf2CellTrial_linear dtf B0 B1 v u gradv curlv a cb cb',
    bdf2InteriorTrial_linear dtf vp vm up um n curlvp curlvm hp hm a fb fb',
    bdf2BoundaryTrial_linear dtf v u g n curlv hb a bb bb'⟩

theorem bdf2_factorized_once_reused_witness :
    (1 ≤ 3 ∧ sampleParams.dt = sampleParams.T / ((3 : ℕ) : ℚ)
      ∧ 0 < sampleParams.dt ∧ 3 - 1 ≤ 2)
    ∧ (((runInduction sampleParams 2).matAsm = 1
      ∧ (runInduction sampleParams 2).cachedFact = some 0
      ∧ (runInduction sampleParams 2).solves = List.replicate (3 - 1) (some 0))
    ∧ bdf2CellTrial (1 : ℚ) (2, 3) (4, 5) (1, 1) (1, 0) ((1, 0), (0, 1)) 1 ⟨(1, 2), 3, 4⟩
        = bdf2CellTrial (1 : ℚ) (6, 7) (8, 9) (1, 1) (1, 0) ((1, 0), (0, 1)) 1 ⟨(1, 2), 3, 4⟩
    ∧ bdf2BoundaryTrial (1 : ℚ) (1, 1) (1, 0) (2, 3) (0, 1) 1 1 ⟨(1, 2), 3⟩
        = bdf2BoundaryTrial (1 : ℚ) (1, 1) (1, 0) (6, 7) (0, 1) 1 1 ⟨(1, 2), 3⟩
    ∧ bdf2CellTrial (1 : ℚ) (2, 3) (4, 5) (1, 1) (1, 0) ((1, 0), (0, 1)) 1
          (CellB.add (CellB.smul 2 ⟨(1, 2), 3, 4⟩) ⟨(5, 6), 7, 8⟩)
        = 2 * bdf2CellTrial (1 : ℚ) (2, 3) (4, 5) (1, 1) (1, 0) ((1, 0), (0, 1)) 1 ⟨(1, 2), 3, 4⟩
          + bdf2CellTrial (1 : ℚ) (2, 3) (4, 5) (1, 1) (1, 0) ((1, 0), (0, 1)) 1 ⟨(5, 6), 7, 8⟩
    ∧ bdf2InteriorTrial (1 : ℚ) (1, 1) (1, 2) (1, 0) (1, 0) (0, 1) 1 1 1 1
          (FaceB.add (FaceB.smul 2 ⟨(1, 2), (3, 4), 5, 6⟩) ⟨(7, 8), (9, 1), 2, 3⟩)
        = 2 * bdf2InteriorTrial (1 : ℚ) (1, 1) (1, 2) (1, 0) (1, 0) (0, 1) 1 1 1 1
            ⟨(1, 2), (3, 4), 5, 6⟩
          + bdf2InteriorTrial (1 : ℚ) (1, 1) (1, 2) (1, 0) (1, 0) (0, 1) 1 1 1 1
            ⟨(7, 8), (9, 1), 2, 3⟩
    ∧ bdf2BoundaryTrial (1 : ℚ) (1, 1) (1, 0) (2, 3) (0, 1) 1 1
          (BdryB.add (BdryB.smul 2 ⟨(1, 2), 3⟩) ⟨(4, 5), 6⟩)
        = 2 * bdf2BoundaryTrial (1 : ℚ) (1, 1) (1, 0) (2, 3) (0, 1) 1 1 ⟨(1, 2), 3⟩
          + bdf2BoundaryTrial (1 : ℚ) (1, 1) (1, 0) (2, 3) (0, 1) 1 1 ⟨(4, 5), 6⟩) :=
  ⟨⟨by norm_num, by norm_num [sampleParams], by norm_num [sampleParams], by norm_num⟩,
   bdf2_factorized_once_reused sampleParams 3 2 (by norm_num)
     (by norm_num [sampleParams]) (by norm_num [sampleParams]) (by norm_num)
     1 2 1 1 1 1 1 1 (2, 3) (4, 5) (6, 7) (8, 9) (1, 1) (1, 0) (2, 3) (6, 7) (0, 1)
     (1, 1) (1, 2) (1, 0) (1, 0) ((1, 0), (0, 1)) ⟨(1, 2), 3, 4⟩ ⟨(5, 6), 7, 8⟩
     ⟨(1, 2), (3, 4), 5, 6⟩ ⟨(7, 8), (9, 1), 2, 3⟩ ⟨(1, 2), 3⟩ ⟨(4, 5), 6⟩⟩

/-- C5: the bootstrap stage performs exactly one implicit-Euler (BDF1) step:
the boundary-data time passed to the one-off solve is `dt`, the solve is
performed with no matrix assembled into the cache and no factorization
cached, the step counter advances to `1` and the time to `dt`; and for
`dt > 0` the code's system `inner(B-B0,v)*dx + dt*BForm(B,v,u,g,n,h) = 0`
has the same solutions as the reference `(B1-B0)/dt + BForm(B1,·) = 0`
(the former is the latter scaled by `dt`). -/
theorem bootstrap_bdf1_step (P : IndParams α F) (mB bf : α) (hdt : 0 < P.dt) :
    ((bootstrapStep P (initState P)).it = 1
      ∧ (bootstrapStep P (initState P)).t = P.dt
      ∧ (bootstrapStep P (initState P)).B1 = P.bdf1 P.b0 P.dt
      ∧ (bootstrapStep P (initState P)).matAsm = 0
      ∧ (bootstrapStep P (initState P)).cachedFact = none)
    ∧ (bdf1FormCode P.dt mB bf = 0 ↔ bdf1FormRef P.dt mB bf = 0) := by
  constructor
  · refine ⟨?_, ?_, ?_, ?_, ?_⟩ <;> simp [bootstrapStep, initState]
  · exact bdf1Form_scaling P.dt mB bf hdt

theorem bootstrap_bdf1_step_witness :
    0 < sampleParams.dt
    ∧ (((bootstrapStep sampleParams (initState sampleParams)).it = 1
      ∧ (bootstrapStep sampleParams (initState sampleParams)).t = sampleParams.dt
      ∧ (bootstrapStep sampleParams (initState sampleParams)).B1
          = sampleParams.bdf1 sampleParams.b0 sampleParams.dt
      ∧ (bootstrapStep sampleParams (initState sampleParams)).matAsm = 0
      ∧ (bootstrapStep sampleParams (initState sampleParams)).cachedFact = none)
    ∧ (bdf1FormCode sampleParams.dt 2 (-2) = 0 ↔ bdf1FormRef sampleParams.dt 2 (-2) = 0)) :=
  ⟨by norm_num [sampleParams],
   bootstrap_bdf1_step sampleParams 2 (-2) (by norm_num [sampleParams])⟩

/-- C7: after every steady step the field history is shifted by exactly one
position: the new `B0` is the `B1` held before the step, and the new `B1`
is the `B2` produced by that step (the solve with history `(B0, B1)` at
boundary time `t + dt`); and the steady loop advances only through
`steadyStep`, so this holds at every steady step of every run. -/
theorem history_shift (P : IndParams α F) (s : IndState α F) (fuel : ℕ) :
    (steadyStep P s).B0 = s.B1
    ∧ (steadyStep P s).B1 = P.bdf2 s.B0 s.B1 (s.t + P.dt)
    ∧ (steadyStep P s).B1 = (steadyStep P s).B2
    ∧ steadyLoop P (fuel + 1) s
        = if s.t < P.T then steadyLoop P fuel (steadyStep P s) else s :=
  ⟨rfl, rfl, rfl, rfl⟩

/-- C8 (amended): with save interval `1` the run writes `N` snapshots, not
`N + 1`: the initial condition plus one per steady step; the bootstrap step
writes none, because the `it % itsave == 0` check is only inside the steady
loop. -/
theorem snapshot_count_eq_steps (P : IndParams α F) (N fuel : ℕ)
    (hN : 1 ≤ N) (hdt : P.dt = P.T / (N : α)) (hpos : 0 < P.dt)
    (hfuel : N - 1 ≤ fuel) (hsave : P.itsave = 1) :
    (runInduction P fuel).snaps = N ∧ (runInduction P fuel).it = N := by
  have hT := horizon_eq P N hN hdt
  obtain ⟨h1, _, _, _, _, _, h7, _⟩ := runInduction_facts P N fuel hpos hT hN hfuel
  exact ⟨h7 hsave, h1⟩

theorem snapshot_count_eq_steps_witness :
    (1 ≤ 3 ∧ sampleParams.dt = sampleParams.T / ((3 : ℕ) : ℚ)
      ∧ 0 < sampleParams.dt ∧ 3 - 1 ≤ 2 ∧ sampleParams.itsave = 1)
    ∧ (runInduction sampleParams 2).snaps = 3
    ∧ (runInduction sampleParams 2).it = 3 :=
  ⟨⟨by norm_num, by norm_num [sampleParams], by norm_num [sampleParams], by norm_num,
     by norm_num [sampleParams]⟩,
   snapshot_count_eq_steps sampleParams 3 2 (by norm_num) (by norm_num [sampleParams])
     (by norm_num [sampleParams]) (by norm_num) (by norm_num [sampleParams])⟩

/-- C10: with the default save interval `1000000` and total step count
`N < 1000000`, the steady-step condition `it % itsave == 0` never holds
(every steady `it` lies in `2..N`, all nonzero modulo the interval), so the
solution file receives exactly one snapshot, the initial condition. -/
theorem default_interval_single_snapshot (P : IndParams α F) (N fuel : ℕ)
    (hN : 1 ≤ N) (hdt : P.dt = P.T / (N : α)) (hpos : 0 < P.dt)
    (hfuel : N - 1 ≤ fuel) (hsave : P.itsave = defaultItsave)
    (hsmall : N < defaultItsave) :
    (runInduction P fuel).snaps = 1
    ∧ (∀ k : ℕ, 1 ≤ k → k ≤ N → k % defaultItsave ≠ 0) := by
  have hT := horizon_eq P N hN hdt
  obtain ⟨_, _, _, _, _, _, _, h8⟩ := runInduction_facts P N fuel hpos hT hN hfuel
  refine ⟨h8 (by rw [hsave]; exact hsmall), ?_⟩
  intro k h1k hkN
  have hk : k % defaultItsave = k := Nat.mod_eq_of_lt (by omega)
  omega

theorem default_interval_single_snapshot_witness :
    (1 ≤ 3 ∧ sampleParamsDefault.dt = sampleParamsDefault.T / ((3 : ℕ) : ℚ)
      ∧ 0 < sampleParamsDefault.dt ∧ 3 - 1 ≤ 2
      ∧ sampleParamsDefault.itsave = defaultItsave ∧ 3 < defaultItsave)
    ∧ (runInduction sampleParamsDefault 2).snaps = 1
    ∧ (∀ k : ℕ, 1 ≤ k → k ≤ 3 → k % defaultItsave ≠ 0) :=
  ⟨⟨by norm_num, by norm_num [sampleParamsDefault, sampleParams],
     by norm_num [sampleParamsDefault, sampleParams], by norm_num,
     by norm_num [sampleParamsDefault], by norm_num [defaultItsave]⟩,
   default_interval_single_snapshot sampleParamsDefault 3 2 (by norm_num)
     (by norm_num [sampleParamsDefault, sampleParams])
     (by norm_num [sampleParamsDefault, sampleParams]) (by norm_num)
     (by norm_num [sampleParamsDefault]) (by norm_num [defaultItsave])⟩

/-- The time-step setup of `solve_induction` at resolution `np`:
`T = 0.5*pi; h = 2.0/np; dt = 0.5*h; N = int(T/dt); dt = T/N`, in exact real
arithmetic. Python's `int()` truncates toward zero, which on the positive
quotient `T/dt` is the floor. -/
def codeTimeSetup (np : ℕ) (N : ℤ) (dt : ℝ) : Prop :=
  N = ⌊Real.pi / 2 / (1 / 2 * (2 / (np : ℝ)))⌋ ∧ dt = Real.pi / 2 / (N : ℝ)

/-- The claim's time-step setup: `N = round(T/(0.5*(2/np)))` (rounding to the
nearest integer) in place of the code's truncation, then `dt = T/N`. -/
def claimTimeSetup (np : ℕ) (N : ℤ) (dt : ℝ) : Prop :=
  N = round (Real.pi / 2 / (1 / 2 * (2 / (np : ℝ)))) ∧ dt = Real.pi / 2 / (N : ℝ)

theorem timeQuotient_eq (np : ℕ) (_h : (np : ℝ) ≠ 0) :
    Real.pi / 2 / (1 / 2 * (2 / (np : ℝ))) = (np : ℝ) * Real.pi / 2 := by
  field_simp
  ring

theorem floor_np40 : ⌊Real.pi / 2 / (1 / 2 * (2 / ((40 : ℕ) : ℝ)))⌋ = 62 := by
  rw [timeQuotient_eq 40 (by norm_num)]
  have hc : ((40 : ℕ) : ℝ) = 40 := by norm_num
  rw [hc, Int.floor_eq_iff]
  push_cast
  constructor <;> nlinarith [Real.pi_gt_d6, Real.pi_lt_d6]

theorem round_np40 : round (Real.pi / 2 / (1 / 2 * (2 / ((40 : ℕ) : ℝ)))) = 63 := by
  rw [timeQuotient_eq 40 (by norm_num)]
  have hc : ((40 : ℕ) : ℝ) = 40 := by norm_num
  rw [hc, round_eq, Int.floor_eq_iff]
  push_cast
  constructor <;> nlinarith [Real.pi_gt_d6, Real.pi_lt_d6]

theorem floor_np20 : ⌊Real.pi / 2 / (1 / 2 * (2 / ((20 : ℕ) : ℝ)))⌋ = 31 := by
  rw [timeQuotient_eq 20 (by norm_num)]
  have hc : ((20 : ℕ) : ℝ) = 20 := by norm_num
  rw [hc, Int.floor_eq_iff]
  push_cast
  constructor <;> nlinarith [Real.pi_gt_d6, Real.pi_lt_d6]

/-- C3 counterexample: at resolution `np = 40` the quotient `T/dt` is
`20*pi ≈ 62.83`; the code computes `N = int(20*pi) = 62` (truncation) while
the claim's `N = round(20*pi) = 63`, so the state the code produces does not
satisfy the claimed relation. -/
theorem timeSetup_round_cex :
    codeTimeSetup 40 62 (Real.pi / 2 / 62)
    ∧ round (Real.pi / 2 / (1 / 2 * (2 / ((40 : ℕ) : ℝ)))) = 63
    ∧ ¬claimTimeSetup 40 62 (Real.pi / 2 / 62) := by
  refine ⟨⟨floor_np40.symm, by norm_num⟩, round_np40, ?_⟩
  intro hcl
  have h := hcl.1
  rw [round_np40] at h
  exact absurd h (by norm_num)

/-- C3 (amended): for every resolution `np ≥ 1` the code's step count is
`N = ⌊T/(0.5*(2/np))⌋` (truncation of the positive quotient, not rounding to
the nearest integer), `N ≥ 1`, and `dt` recomputed as `T/N` satisfies
`N*dt = T` exactly, with `T = pi/2`. -/
theorem timeSetup_floor_amended (np : ℕ) (N : ℤ) (dt : ℝ) (hnp : 1 ≤ np)
    (h : codeTimeSetup np N dt) :
    1 ≤ N ∧ (N : ℝ) * dt = Real.pi / 2 := by
  have hnpR : (1 : ℝ) ≤ (np : ℝ) := by exact_mod_cast hnp
  have hq : Real.pi / 2 / (1 / 2 * (2 / (np : ℝ))) = (np : ℝ) * Real.pi / 2 :=
    timeQuotient_eq np (by linarith)
  have hq1 : ((1 : ℤ) : ℝ) ≤ (np : ℝ) * Real.pi / 2 := by
    push_cast
    nlinarith [Real.pi_gt_d6]
  have hN1 : 1 ≤ N := by
    rw [h.1, hq]
    exact Int.le_floor.mpr hq1
  have hNne : (N : ℝ) ≠ 0 := by
    have h0 : (0 : ℤ) < N := by omega
    have : (0 : ℝ) < (N : ℝ) := by exact_mod_cast h0
    exact ne_of_gt this
  refine ⟨hN1, ?_⟩
  rw [h.2]
  field_simp
  ring

theorem timeSetup_floor_amended_witness :
    (1 ≤ 40 ∧ codeTimeSetup 40 62 (Real.pi / 2 / 62))
    ∧ 1 ≤ (62 : ℤ) ∧ ((62 : ℤ) : ℝ) * (Real.pi / 2 / 62) = Real.pi / 2 :=
  ⟨⟨by norm_num, ⟨floor_np40.symm, by norm_num⟩⟩,
   timeSetup_floor_amended 40 62 (Real.pi / 2 / 62) (by norm_num)
     ⟨floor_np40.symm, by norm_num⟩⟩

/-- C8 counterexample: the run at resolution `np = 20` (whose setup the code
computes as `N = int(10*pi) = 31`, `dt = (pi/2)/31`) with save interval `1`
writes `31 = N` snapshots — the initial condition plus one per steady step,
none at the bootstrap step — and not `N + 1 = 32` as claimed. -/
theorem snapshot_count_cex :
    codeTimeSetup 20 31 (Real.pi / 2 / 31)
    ∧ (runInduction
        ({ b0 := (), fresh := (), bdf1 := fun _ _ => (), bdf2 := fun _ _ _ => (),
           itsave := 1, T := Real.pi / 2, dt := Real.pi / 2 / 31 } :
          IndParams ℝ Unit) 30).snaps = 31
    ∧ (runInduction
        ({ b0 := (), fresh := (), bdf1 := fun _ _ => (), bdf2 := fun _ _ _ => (),
           itsave := 1, T := Real.pi / 2, dt := Real.pi / 2 / 31 } :
          IndParams ℝ Unit) 30).it = 31
    ∧ (31 : ℕ) ≠ 31 + 1 := by
  have key := runInduction_facts
    (P := ({ b0 := (), fresh := (), bdf1 := fun _ _ => (), bdf2 := fun _ _ _ => (),
             itsave := 1, T := Real.pi / 2, dt := Real.pi / 2 / 31 } :
            IndParams ℝ Unit))
    31 30 (by positivity)
    (by show Real.pi / 2 = ((31 : ℕ) : ℝ) * (Real.pi / 2 / 31); push_cast; ring)
    (by norm_num) (by norm_num)
  obtain ⟨h1, _, _, _, _, _, h7, _⟩ := key
  exact ⟨⟨floor_np20.symm, by norm_num⟩, h7 rfl, h1, by norm_num⟩

/-- Pairwise rate computation of the driver `__main__`: for each pair of
consecutive recorded errors `e[m], e[m+1]` the code computes
`log(e[m]/e[m+1]) / log(2)`; the logarithm is the math library's and enters
here as the parameter `lg`. -/
def convRates {β : Type} [Div β] (lg : β → β) : List β → List β
  | e0 :: e1 :: rest => lg (e0 / e1) :: convRates lg (e1 :: rest)
  | _ => []

/-- The resolution sweep of `__main__`: each resolution is run to completion
in the given order, recording its `(div_l2, err_l2)` pair. -/
def driverRun {R : Type} (solveRes : ℕ → R) (resolutions : List ℕ) : List R :=
  List.map solveRes resolutions

theorem convRates_eq_zip {β : Type} [Div β] (lg : β → β) (es : List β) :
    convRates lg es = List.map (fun p => lg (p.1 / p.2)) (List.zip es es.tail) := by
  induction es with
  | nil => rfl
  | cons e0 rest ih =>
    cases rest with
    | nil => rfl
    | cons e1 rest' =>
      simp only [convRates, List.tail_cons, List.zip_cons_cons, List.map_cons]
      rw [ih]
      simp [List.tail_cons]

theorem convRates_length {β : Type} [Div β] (lg : β → β) (es : List β) :
    (convRates lg es).length = es.length - 1 := by
  rw [convRates_eq_zip, List.length_map, List.length_zip, List.length_tail]
  omega

/-- C9: the convergence driver runs each of the `k` resolutions to
completion in the given order (the sweep maps the per-resolution solver over
the list), then computes exactly `k - 1` rate pairs: the consecutive-pair
rates are `log2` of the ratio of L2 errors and `log2` of the ratio of
divergence errors (the code's `log(r)/log(2)` is `Real.logb 2 r` by
definition); for `k = 1` no rate pair is produced. -/
theorem conv_driver_rates (solveRes : ℕ → ℝ × ℝ) (resolutions : List ℕ) :
    driverRun solveRes resolutions = List.map solveRes resolutions
    ∧ (convRates (fun r => Real.log r / Real.log 2)
        (List.map Prod.snd (driverRun solveRes resolutions))).length
      = resolutions.length - 1
    ∧ (convRates (fun r => Real.log r / Real.log 2)
        (List.map Prod.fst (driverRun solveRes resolutions))).length
      = resolutions.length - 1
    ∧ (∀ es : List ℝ, convRates (fun r => Real.log r / Real.log 2) es
        = List.map (fun p => Real.logb 2 (p.1 / p.2)) (List.zip es es.tail))
    ∧ (resolutions.length = 1 →
        convRates (fun r => Real.log r / Real.log 2)
          (List.map Prod.snd (driverRun solveRes resolutions)) = []
        ∧ convRates (fun r => Real.log r / Real.log 2)
          (List.map Prod.fst (driverRun solveRes resolutions)) = []) := by
  refine ⟨rfl, ?_, ?_, ?_, ?_⟩
  · rw [convRates_length]
    simp [driverRun]
  · rw [convRates_length]
    simp [driverRun]
  · intro es
    rw [convRates_eq_zip]
    simp [Real.logb]
  · intro hk
    constructor <;>
      [skip; skip] <;>
      · rw [← List.length_eq_zero, convRates_length]
        simp [driverRun, hk]

end Induction
